import Mathlib

/-!
Verification development for the vn repository (src/main.py, src/poster.py,
src/vnexpress_parser.py): a shallow embedding of the deduplication and
incremental-publishing state machine (the Ledger in poster.py, the Catalog
and article pipeline in main.py, the Telegram chunking in poster.py),
with theorems settling the frozen claims about it.

Modelling conventions:
* Python JSON values that can appear in the state files are modelled by
  `PJson` (ints, strings, and dicts whose only behaviour-relevant key is
  "id"; other shapes are behaviourally inert for the code under study).
* Python `int(...)`, `str.isdigit`, `str(...)`, `<` comparisons, `sorted`,
  `collections.deque(maxlen=...)`, `str.split`, `str.replace`, `str.strip`
  and `str.lstrip` are embedded by executable functions whose semantics
  follow CPython on the value shapes the program can produce (ASCII
  approximations for `\w`, `isdigit` and `lower` are noted where used).
* Operations that can raise `TypeError` (heterogeneous `sorted`, hashing a
  dict) return `Option`, `none` marking the raised exception.
-/

/-- A JSON value as it can occur inside the state files of the repository.
`jdictId v` models a JSON object whose "id" key holds `v`; `jdictNoId`
models an object without an "id" key: the code under study inspects
objects only through `item["id"]` / `"id" in item`. -/
inductive PJson where
  | jint (n : Int)
  | jstr (s : String)
  | jdictNoId
  | jdictId (v : PJson)
  deriving DecidableEq

namespace PyPrim

/-- Python `str.isdigit()` for ASCII content: nonempty and all digits. -/
def pyIsDigit (s : String) : Bool :=
  !s.toList.isEmpty && s.toList.all Char.isDigit

/-- Value of a nonempty all-digit character list, base 10. -/
def digitsToNat (ds : List Char) : Option Nat :=
  match ds with
  | [] => none
  | ds =>
    if ds.all Char.isDigit then
      some (ds.foldl (fun a c => a * 10 + (c.toNat - 48)) 0)
    else none

/-- Python whitespace (`str.strip` / `str.lstrip` character class), ASCII part. -/
def pyIsSpace (c : Char) : Bool :=
  c = ' ' || c = '\t' || c = '\n' || c = '\r' || c = '\x0b' || c = '\x0c'

/-- Python `str.lstrip()` on a character list. -/
def pyLStrip (s : List Char) : List Char :=
  s.dropWhile pyIsSpace

/-- Python `str.strip()` on a character list. -/
def pyStrip (s : List Char) : List Char :=
  ((s.dropWhile pyIsSpace).reverse.dropWhile pyIsSpace).reverse

/-- Python `int(s)` on a string: strip whitespace, optional sign, digits. -/
def pyIntOfStr (s : String) : Option Int :=
  match pyStrip s.toList with
  | '-' :: rest => (digitsToNat rest).map (fun n => -(n : Int))
  | '+' :: rest => (digitsToNat rest).map Int.ofNat
  | t => (digitsToNat t).map Int.ofNat

/-- Python `str(n)` for an int (CPython decimal form, `-` sign for negatives). -/
def pyStrOfInt (n : Int) : String := toString n

/-- Python `int(x)` applied to a JSON value: succeeds on ints and on strings
that parse as integers; raises (`none`) on dicts. -/
def pyIntOf : PJson → Option Int
  | .jint n => some n
  | .jstr s => pyIntOfStr s
  | .jdictId _ => none
  | .jdictNoId => none

/-- Python `repr` of a modelled JSON value (dicts rendered with their single
behaviour-relevant "id" key; string quoting approximated with `'`). -/
def pyRepr : PJson → String
  | .jint n => toString n
  | .jstr s => "'" ++ s ++ "'"
  | .jdictNoId => "\x7b\x7d"
  | .jdictId v => "\x7b'id': " ++ pyRepr v ++ "\x7d"

/-- Python `str(x)` of a modelled JSON value. -/
def pyStr : PJson → String
  | .jstr s => s
  | x => pyRepr x

/-- Python `<` on two JSON values: defined within ints and within strings,
`TypeError` (`none`) across types or on dicts. -/
def pyLtJ : PJson → PJson → Option Bool
  | .jint a, .jint b => some (a < b)
  | .jstr a, .jstr b => some (decide (a < b))
  | _, _ => none

/-- Stable insertion into an ascending list using Python `<`; `none`
propagates a `TypeError` raised by an attempted comparison. -/
def pyInsertAsc (x : PJson) : List PJson → Option (List PJson)
  | [] => some [x]
  | y :: ys =>
    match pyLtJ x y with
    | none => none
    | some true => some (x :: y :: ys)
    | some false =>
      match pyInsertAsc x ys with
      | none => none
      | some r => some (y :: r)

/-- Python `sorted(xs)` (stable ascending); `none` models the `TypeError`
raised when elements of incomparable types are compared. -/
def pySortAsc : List PJson → Option (List PJson)
  | [] => some []
  | x :: xs =>
    match pySortAsc xs with
    | none => none
    | some r => pyInsertAsc x r

/-- Python `sorted(xs, reverse=True)`. -/
def pySortDesc (xs : List PJson) : Option (List PJson) :=
  (pySortAsc xs).map List.reverse

/-- `collections.deque(maxlen=cap).appendleft x`: when full, discards from
the right. -/
def dqAppendLeft (cap : Nat) (x : PJson) (d : List PJson) : List PJson :=
  (x :: d).take cap

/-- `collections.deque(maxlen=cap).append x`: when full, discards from the
left. -/
def dqAppendRight (cap : Nat) (d : List PJson) (x : PJson) : List PJson :=
  if d.length < cap then d ++ [x] else (d ++ [x]).drop (d.length + 1 - cap)

end PyPrim

open PyPrim

/-- Contents of a JSON state file as the loading code observes them:
missing file, unreadable/empty/corrupt/non-list content, or a JSON list. -/
inductive StateFile where
  | missing
  | corrupt
  | content (items : List PJson)
  deriving DecidableEq

namespace poster

/-- `MAX_POSTED_RECORDS` from src/poster.py. -/
def MAX_POSTED_RECORDS : Nat := 200

/-- The id list `save_posted_ids` reads from the existing state file
(src/poster.py lines 352-368): dict items contribute `item["id"]`
unconverted, int items contribute themselves, everything else (notably
strings) is skipped; missing/corrupt/non-list files yield a fresh list. -/
def readCurrentIds : StateFile → List PJson
  | .content items =>
    items.filterMap fun it =>
      match it with
      | .jdictId v => some v
      | .jdictNoId => none
      | .jint n => some (.jint n)
      | .jstr _ => none
  | _ => []

/-- `save_posted_ids` from src/poster.py (lines 345-388), parameterised by
the cap (`MAX_POSTED_RECORDS` in the source). `allIds` models the Python
set `all_ids_to_save` (taken deduplicated), `file` the prior state file.
Returns the list written back, or `none` for the uncaught `TypeError` of
`sorted` on incomparable ids. The write happens through a
`deque(maxlen=cap)`: new ids (sorted descending) are `appendleft`-ed, then
previously present ids still in `allIds` are `append`-ed. -/
def save_posted_ids (cap : Nat) (allIds : List PJson) (file : StateFile) :
    Option (List PJson) :=
  let current := readCurrentIds file
  let fresh := allIds.dedup.filter (fun a => a ∉ current)
  match pySortDesc fresh with
  | none => none
  | some newDesc =>
    let d1 := newDesc.foldl (fun d x => dqAppendLeft cap x d) []
    let d2 := current.foldl
      (fun d x => if x ∈ allIds ∧ x ∉ d then dqAppendRight cap d x else d) d1
    some d2

/-- `load_posted_ids` from src/poster.py (lines 307-342): returns the set of
published ids as ints. Dict items use `int(item["id"])` (skipped on
conversion failure), int/str items are kept when `str(item).isdigit()`,
everything else is skipped. The set is modelled as a duplicate-free list. -/
def load_posted_ids (file : StateFile) : List Int :=
  match file with
  | .content items =>
    items.foldl
      (fun acc it =>
        let add := fun (n : Int) => if n ∈ acc then acc else acc ++ [n]
        match it with
        | .jdictId v =>
          match pyIntOf v with
          | some n => add n
          | none => acc
        | .jdictNoId => acc
        | .jint n => if pyIsDigit (pyStrOfInt n) then add n else acc
        | .jstr s =>
          if pyIsDigit s then
            match pyIntOfStr s with
            | some n => add n
            | none => acc
          else acc)
      []
  | _ => []

end poster

/-- C1: with the cap at 3 and the state file holding the JSON list
["1","2","3"], saving after delivering id 4 (so `all_ids_to_save` is
{1,2,3,4}, the three old ids having been loaded as ints by
`load_posted_ids` and united with the new id): the claim says the saved
Ledger is exactly 3 entries including 4, with 1 evicted. The code instead
writes [1, 2, 3] — the newly delivered id 4 is the one evicted (the
string forms are dropped on re-read, the new ids are appendleft-ed in
descending order into the bounded deque, and the final appendleft of 1
pushes 4 out on the right), contradicting both the claim and the
function's own docstring ("adding new ids at the front and evicting old
ones at the end"). -/
theorem C1_save_posted_ids_evicts_newest :
    poster.save_posted_ids 3
        [.jint 1, .jint 2, .jint 3, .jint 4]
        (.content [.jstr "1", .jstr "2", .jstr "3"])
      = some [.jint 1, .jint 2, .jint 3] ∧
    poster.load_posted_ids (.content [.jstr "1", .jstr "2", .jstr "3"])
      = [1, 2, 3] ∧
    PJson.jint 4 ∉ [PJson.jint 1, PJson.jint 2, PJson.jint 3] ∧
    PJson.jint 1 ∈ [PJson.jint 1, PJson.jint 2, PJson.jint 3] := by
  refine ⟨by decide, by decide, by decide, by decide⟩

/-! ## Chunking (src/poster.py, `chunk_text`, lines 41-78)

Texts are modelled as `List Char` (Python `len` on `str` = list length).
`str.split` with the two separators the source uses (`"\n\n"` and `" "`),
`str.replace('\r\n','\n')` and joining are embedded structurally so that
all definitions evaluate by kernel reduction. -/

namespace poster

/-- Python `text.replace('\r\n', '\n')`: left-to-right, non-overlapping. -/
def normNewlines : List Char → List Char
  | '\r' :: '\n' :: rest => '\n' :: normNewlines rest
  | c :: rest => c :: normNewlines rest
  | [] => []

/-- Python `s.split('\n\n')`: left-to-right, non-overlapping. -/
def pySplitPara : List Char → List (List Char)
  | '\n' :: '\n' :: rest => [] :: pySplitPara rest
  | c :: rest =>
    match pySplitPara rest with
    | [] => [[c]]
    | t :: ts => (c :: t) :: ts
  | [] => [[]]

/-- Python `s.split(' ')`. -/
def pySplitSpace : List Char → List (List Char)
  | ' ' :: rest => [] :: pySplitSpace rest
  | c :: rest =>
    match pySplitSpace rest with
    | [] => [[c]]
    | t :: ts => (c :: t) :: ts
  | [] => [[]]

/-- `sep.join xs` (Python `str.join`): pieces interleaved with `sep`. -/
def joinSep (sep : List Char) : List (List Char) → List Char
  | [] => []
  | [x] => x
  | x :: y :: ys => x ++ sep ++ joinSep sep (y :: ys)

/-- Truthiness of `p.strip()` in the comprehension filtering paragraphs:
the piece contains a non-whitespace character. -/
def hasContent (p : List Char) : Bool :=
  p.any (fun c => !PyPrim.pyIsSpace c)

/-- One iteration of the `for w in p.split(" ")` loop inside `split_long`:
state is `(parts, sub)`; an overflowing word flushes `sub` and starts a
fresh one, otherwise the word is appended after a space and the result
`lstrip`-ped, exactly as `(sub + " " + w).lstrip()`. -/
def splitLongStep (size : Nat) (st : List (List Char) × List Char)
    (w : List Char) : List (List Char) × List Char :=
  let (parts, sub) := st
  if size < sub.length + w.length + 1 then (parts ++ [sub], w)
  else (parts, PyPrim.pyLStrip (sub ++ ' ' :: w))

/-- The common final step of `split_long` and `chunk_text`: append the
pending accumulator when it is nonempty (`if sub: parts.append(sub)` /
`if curr: chunks.append(curr)`). -/
def flushChunks (st : List (List Char) × List Char) : List (List Char) :=
  st.1 ++ (if st.2.isEmpty then [] else [st.2])

/-- `split_long` from inside `chunk_text` (src/poster.py lines 49-59),
splitting an over-long paragraph at spaces. -/
def split_long (size : Nat) (p : List Char) : List (List Char) :=
  flushChunks ((pySplitSpace p).foldl (splitLongStep size) ([], []))

/-- One iteration of the `for p in paras` loop of `chunk_text`
(src/poster.py lines 61-74): state is `(chunks, curr)`. -/
def chunkStep (size : Nat) (st : List (List Char) × List Char)
    (p : List Char) : List (List Char) × List Char :=
  let (chunks, curr) := st
  if size < p.length then
    ((if curr.isEmpty then chunks else chunks ++ [curr]) ++ split_long size p,
     [])
  else if curr.isEmpty then (chunks, p)
  else if curr.length + 2 + p.length ≤ size then
    (chunks, curr ++ '\n' :: '\n' :: p)
  else (chunks ++ [curr], p)

/-- The paragraph list `chunk_text` operates on (src/poster.py lines 45-46):
CRLF-normalised text split on blank lines, whitespace-only pieces dropped. -/
def chunkParas (text : List Char) : List (List Char) :=
  (pySplitPara (normNewlines text)).filter hasContent

/-- `chunk_text` from src/poster.py (lines 41-78): split text into chunks of
length at most `size`, preserving paragraphs where possible. -/
def chunk_text (size : Nat) (text : List Char) : List (List Char) :=
  flushChunks ((chunkParas text).foldl (chunkStep size) ([], []))

/-- Tokeniser into maximal runs of non-whitespace characters (the "words"
that survive `lstrip` and space-splitting); accumulator holds the current
run reversed. -/
def wsWordsAux : List Char → List Char → List (List Char)
  | cur, [] => if cur.isEmpty then [] else [cur.reverse]
  | cur, c :: rest =>
    if PyPrim.pyIsSpace c then
      if cur.isEmpty then wsWordsAux [] rest
      else cur.reverse :: wsWordsAux [] rest
    else wsWordsAux (c :: cur) rest

/-- The whitespace-separated words of a string. -/
def wsWords (s : List Char) : List (List Char) :=
  wsWordsAux [] s

end poster

namespace poster

theorem pySplitPara_ne_nil (s : List Char) : pySplitPara s ≠ [] := by
  induction s using pySplitPara.induct with
  | case1 rest ih => simp [pySplitPara.eq_1]
  | case2 c rest h hm ih => rw [pySplitPara.eq_2 c rest h, hm]; simp
  | case3 c rest h t ts hm ih => rw [pySplitPara.eq_2 c rest h, hm]; simp
  | case4 => simp [pySplitPara.eq_3]

theorem pySplitSpace_ne_nil (s : List Char) : pySplitSpace s ≠ [] := by
  induction s using pySplitSpace.induct with
  | case1 rest ih => simp [pySplitSpace.eq_1]
  | case2 c rest h hm ih => rw [pySplitSpace.eq_2 c rest h, hm]; simp
  | case3 c rest h t ts hm ih => rw [pySplitSpace.eq_2 c rest h, hm]; simp
  | case4 => simp [pySplitSpace.eq_3]

theorem joinSep_cons_head (sep : List Char) (c : Char) (t : List Char)
    (ts : List (List Char)) :
    joinSep sep ((c :: t) :: ts) = c :: joinSep sep (t :: ts) := by
  cases ts <;> simp [joinSep]

theorem joinSep_cons_of_ne_nil (sep x : List Char) {L : List (List Char)}
    (h : L ≠ []) : joinSep sep (x :: L) = x ++ sep ++ joinSep sep L := by
  cases L with
  | nil => exact absurd rfl h
  | cons y ys => simp [joinSep]

theorem joinSep_splitPara (s : List Char) :
    joinSep ['\n', '\n'] (pySplitPara s) = s := by
  induction s using pySplitPara.induct with
  | case1 rest ih =>
    rw [pySplitPara.eq_1,
      joinSep_cons_of_ne_nil _ _ (pySplitPara_ne_nil rest), ih]
    simp
  | case2 c rest h hm ih =>
    exact absurd hm (pySplitPara_ne_nil rest)
  | case3 c rest h t ts hm ih =>
    rw [hm] at ih
    rw [pySplitPara.eq_2 c rest h, hm, joinSep_cons_head, ih]
  | case4 => simp [pySplitPara.eq_3, joinSep]

theorem joinSep_splitSpace (s : List Char) :
    joinSep [' '] (pySplitSpace s) = s := by
  induction s using pySplitSpace.induct with
  | case1 rest ih =>
    rw [pySplitSpace.eq_1,
      joinSep_cons_of_ne_nil _ _ (pySplitSpace_ne_nil rest), ih]
    simp
  | case2 c rest h hm ih =>
    exact absurd hm (pySplitSpace_ne_nil rest)
  | case3 c rest h t ts hm ih =>
    rw [hm] at ih
    rw [pySplitSpace.eq_2 c rest h, hm, joinSep_cons_head, ih]
  | case4 => simp [pySplitSpace.eq_3, joinSep]

theorem normNewlines_of_no_cr (s : List Char) (h : '\r' ∉ s) :
    normNewlines s = s := by
  induction s using normNewlines.induct with
  | case1 rest ih => simp at h
  | case2 c rest hg ih =>
    rw [normNewlines.eq_2 c rest hg, ih (fun hc => h (List.mem_cons_of_mem c hc))]
  | case3 => rfl

end poster

namespace poster

theorem joinSep_merge (sep : List Char) (a b : List Char)
    (xs ys : List (List Char)) :
    joinSep sep (xs ++ (a ++ sep ++ b) :: ys) =
      joinSep sep (xs ++ a :: b :: ys) := by
  induction xs with
  | nil =>
    cases ys with
    | nil => simp [joinSep]
    | cons y ys' =>
      rw [List.nil_append, List.nil_append,
        joinSep_cons_of_ne_nil _ _ (by simp : (y :: ys' : List (List Char)) ≠ []),
        joinSep_cons_of_ne_nil _ _ (by simp : (b :: y :: ys' : List (List Char)) ≠ []),
        joinSep_cons_of_ne_nil _ _ (by simp : (y :: ys' : List (List Char)) ≠ [])]
      simp [List.append_assoc]
  | cons x xs' ih =>
    rw [List.cons_append, List.cons_append,
      joinSep_cons_of_ne_nil _ _ (by simp : xs' ++ (a ++ sep ++ b) :: ys ≠ []),
      joinSep_cons_of_ne_nil _ _ (by simp : xs' ++ a :: b :: ys ≠ []), ih]

theorem chunkStep_small_empty {size : Nat} {p curr : List Char}
    {chunks : List (List Char)} (h1 : ¬ size < p.length)
    (h2 : curr.isEmpty = true) :
    chunkStep size (chunks, curr) p = (chunks, p) := by
  simp [chunkStep, h1, h2]

theorem chunkStep_merge {size : Nat} {p curr : List Char}
    {chunks : List (List Char)} (h1 : ¬ size < p.length)
    (h2 : curr.isEmpty = false) (h3 : curr.length + 2 + p.length ≤ size) :
    chunkStep size (chunks, curr) p = (chunks, curr ++ '\n' :: '\n' :: p) := by
  simp [chunkStep, h1, h2, h3]

theorem chunkStep_flush {size : Nat} {p curr : List Char}
    {chunks : List (List Char)} (h1 : ¬ size < p.length)
    (h2 : curr.isEmpty = false) (h3 : ¬ curr.length + 2 + p.length ≤ size) :
    chunkStep size (chunks, curr) p = (chunks ++ [curr], p) := by
  simp [chunkStep, h1, h2, h3]

theorem chunkFold_join (size : Nat) (paras : List (List Char)) :
    ∀ (chunks : List (List Char)) (curr : List Char),
      (∀ p ∈ paras, p ≠ [] ∧ p.length ≤ size) →
      joinSep ['\n', '\n']
          (flushChunks (paras.foldl (chunkStep size) (chunks, curr))) =
        joinSep ['\n', '\n']
          (chunks ++ (if curr.isEmpty then [] else [curr]) ++ paras) := by
  induction paras with
  | nil => intro chunks curr h; simp [flushChunks]
  | cons p rest ih =>
    intro chunks curr h
    obtain ⟨hpne, hple⟩ := h p (by simp)
    have hrest : ∀ q ∈ rest, q ≠ [] ∧ q.length ≤ size := fun q hq => h q (by simp [hq])
    have hnlt : ¬ size < p.length := by omega
    have hpE : p.isEmpty = false := by
      cases p with
      | nil => exact absurd rfl hpne
      | cons _ _ => rfl
    rw [List.foldl_cons]
    by_cases hc : curr.isEmpty
    · rw [chunkStep_small_empty hnlt hc, ih chunks p hrest]
      simp [hc, hpE]
    · have hcF : curr.isEmpty = false := by simpa using hc
      by_cases hm : curr.length + 2 + p.length ≤ size
      · rw [chunkStep_merge hnlt hcF hm, ih chunks (curr ++ '\n' :: '\n' :: p) hrest]
        have h1 : (curr ++ '\n' :: '\n' :: p).isEmpty = false := by
          cases curr with
          | nil => simp at hcF
          | cons _ _ => rfl
        simp only [h1, Bool.false_eq_true, if_false, hcF]
        have h2 : curr ++ '\n' :: '\n' :: p = curr ++ ['\n', '\n'] ++ p := by simp
        rw [h2]
        have h3 := joinSep_merge ['\n', '\n'] curr p chunks rest
        simp only [List.append_assoc, List.singleton_append, List.cons_append] at h3 ⊢
        exact h3
      · rw [chunkStep_flush hnlt hcF hm, ih (chunks ++ [curr]) p hrest]
        simp [hcF, hpE]

end poster

namespace poster

theorem chunkFold_bound (size : Nat) (paras : List (List Char)) :
    ∀ (chunks : List (List Char)) (curr : List Char),
      (∀ p ∈ paras, p.length ≤ size) →
      (∀ c ∈ chunks, c.length ≤ size) → curr.length ≤ size →
      ∀ c ∈ flushChunks (paras.foldl (chunkStep size) (chunks, curr)),
        c.length ≤ size := by
  induction paras with
  | nil =>
    intro chunks curr _ hch hcu c hc
    simp only [List.foldl_nil, flushChunks] at hc
    rcases List.mem_append.mp hc with h | h
    · exact hch c h
    · rcases Bool.eq_false_or_eq_true curr.isEmpty with he | he
      · rw [he] at h; simp at h
      · rw [he] at h; simp at h; subst h; exact hcu
  | cons p rest ih =>
    intro chunks curr hps hch hcu
    have hple : p.length ≤ size := hps p (by simp)
    have hrest : ∀ q ∈ rest, q.length ≤ size := fun q hq => hps q (by simp [hq])
    have hnlt : ¬ size < p.length := by omega
    rw [List.foldl_cons]
    by_cases hc : curr.isEmpty
    · rw [chunkStep_small_empty hnlt hc]
      exact ih chunks p hrest hch hple
    · have hcF : curr.isEmpty = false := by simpa using hc
      by_cases hm : curr.length + 2 + p.length ≤ size
      · rw [chunkStep_merge hnlt hcF hm]
        refine ih chunks (curr ++ '\n' :: '\n' :: p) hrest hch ?_
        simp only [List.length_append, List.length_cons]
        omega
      · rw [chunkStep_flush hnlt hcF hm]
        refine ih (chunks ++ [curr]) p hrest ?_ hple
        intro c hcmem
        rcases List.mem_append.mp hcmem with h | h
        · exact hch c h
        · simp at h; subst h; exact hcu

theorem wsWordsAux_append_space (b : List Char) :
    ∀ (a cur : List Char),
      wsWordsAux cur (a ++ ' ' :: b) = wsWordsAux cur a ++ wsWordsAux [] b := by
  intro a
  induction a with
  | nil =>
    intro cur
    show wsWordsAux cur (' ' :: b) = _
    by_cases hc : cur.isEmpty
    · simp [wsWordsAux, PyPrim.pyIsSpace, hc]
    · simp [wsWordsAux, PyPrim.pyIsSpace, hc]
  | cons c a' ih =>
    intro cur
    show wsWordsAux cur (c :: (a' ++ ' ' :: b)) = wsWordsAux cur (c :: a') ++ _
    by_cases hsp : PyPrim.pyIsSpace c
    · by_cases hc : cur.isEmpty
      · simp only [wsWordsAux, hsp, hc, if_true]
        exact ih []
      · simp only [wsWordsAux, hsp, hc, if_true, if_false]
        rw [ih []]
        simp
    · simp only [wsWordsAux, hsp, Bool.false_eq_true, if_false]
      exact ih (c :: cur)

theorem wsWordsAux_lstrip (s : List Char) :
    wsWordsAux [] (PyPrim.pyLStrip s) = wsWordsAux [] s := by
  induction s with
  | nil => rfl
  | cons c rest ih =>
    by_cases hsp : PyPrim.pyIsSpace c
    · show wsWordsAux [] (List.dropWhile PyPrim.pyIsSpace (c :: rest)) = _
      rw [List.dropWhile_cons_of_pos hsp]
      rw [show wsWordsAux [] (c :: rest) = wsWordsAux [] rest by
        simp [wsWordsAux, hsp]]
      exact ih
    · show wsWordsAux [] (List.dropWhile PyPrim.pyIsSpace (c :: rest)) = _
      rw [List.dropWhile_cons_of_neg hsp]

theorem wsWords_append_space (a b : List Char) :
    wsWords (a ++ ' ' :: b) = wsWords a ++ wsWords b :=
  wsWordsAux_append_space b a []

theorem wsWords_lstrip (s : List Char) :
    wsWords (PyPrim.pyLStrip s) = wsWords s :=
  wsWordsAux_lstrip s

theorem wsWords_joinSep_space (ls : List (List Char)) (h : ls ≠ []) :
    wsWords (joinSep [' '] ls) = ls.flatMap wsWords := by
  induction ls with
  | nil => exact absurd rfl h
  | cons x ls' ih =>
    cases ls' with
    | nil => simp [joinSep, wsWords]
    | cons y ys =>
      rw [joinSep_cons_of_ne_nil _ _ (by simp : (y :: ys : List (List Char)) ≠ [])]
      rw [show x ++ [' '] ++ joinSep [' '] (y :: ys) = x ++ ' ' :: joinSep [' '] (y :: ys) by simp]
      rw [wsWords_append_space, ih (by simp)]
      simp

theorem splitLongFold_words (size : Nat) (ws : List (List Char)) :
    ∀ (parts : List (List Char)) (sub : List Char),
      ((ws.foldl (splitLongStep size) (parts, sub)).1.flatMap wsWords) ++
          wsWords (ws.foldl (splitLongStep size) (parts, sub)).2 =
        (parts.flatMap wsWords ++ wsWords sub) ++ ws.flatMap wsWords := by
  induction ws with
  | nil => intro parts sub; simp
  | cons w ws' ih =>
    intro parts sub
    rw [List.foldl_cons]
    by_cases hov : size < sub.length + w.length + 1
    · rw [show splitLongStep size (parts, sub) w = (parts ++ [sub], w) by
        simp [splitLongStep, hov]]
      rw [ih (parts ++ [sub]) w]
      simp [List.flatMap_append, List.append_assoc]
    · rw [show splitLongStep size (parts, sub) w
          = (parts, PyPrim.pyLStrip (sub ++ ' ' :: w)) by
        simp [splitLongStep, hov]]
      rw [ih parts (PyPrim.pyLStrip (sub ++ ' ' :: w))]
      rw [show wsWords (PyPrim.pyLStrip (sub ++ ' ' :: w)) = wsWords sub ++ wsWords w from
        (wsWords_lstrip _).trans (wsWords_append_space sub w)]
      simp [List.append_assoc]

theorem split_long_words (size : Nat) (p : List Char) :
    (split_long size p).flatMap wsWords = wsWords p := by
  have hsplit : (pySplitSpace p).flatMap wsWords = wsWords p := by
    rw [← wsWords_joinSep_space (pySplitSpace p) (pySplitSpace_ne_nil p),
      joinSep_splitSpace]
  have h := splitLongFold_words size (pySplitSpace p) [] []
  rw [show wsWords ([] : List Char) = [] from rfl] at h
  simp only [List.flatMap_nil, List.nil_append] at h
  unfold split_long flushChunks
  rw [List.flatMap_append]
  rcases Bool.eq_false_or_eq_true
      ((pySplitSpace p).foldl (splitLongStep size) ([], [])).2.isEmpty with he | he
  swap
  · rw [he]
    simp only [Bool.false_eq_true, if_false]
    rw [show ([((pySplitSpace p).foldl (splitLongStep size) ([], [])).2] :
          List (List Char)).flatMap wsWords
        = wsWords ((pySplitSpace p).foldl (splitLongStep size) ([], [])).2 by simp]
    rw [h, hsplit]
  · rw [he]
    simp only [if_true]
    have h2 : ((pySplitSpace p).foldl (splitLongStep size) ([], [])).2 = [] :=
      List.isEmpty_iff.mp he
    rw [h2] at h
    rw [show wsWords ([] : List Char) = [] from rfl] at h
    simp only [List.append_nil] at h
    simpa using h.trans hsplit

end poster

/-- C4 counterexample: the chunking reconstruction law fails as stated.
For the text "a\n\n\n\nb" the empty paragraph between the two blank-line
separators is dropped (`if p.strip()`), so re-joining the returned chunks
with the paragraph separator yields "a\n\nb", not the original text. -/
theorem C4_chunk_reconstruction_counterexample :
    poster.joinSep ['\n', '\n']
        (poster.chunk_text 4096 ['a', '\n', '\n', '\n', '\n', 'b'])
      ≠ ['a', '\n', '\n', '\n', '\n', 'b'] := by decide

/-- C4 amended: (1) re-joining the chunks with the paragraph separator
reproduces the original text provided the text contains no carriage
return, every "\n\n"-separated paragraph contains a non-whitespace
character, and every paragraph fits in `size`; (2) if every paragraph of
the text fits in `size`, no returned chunk exceeds `size`; (3) an
over-long paragraph is split by `split_long` only at word boundaries with
no word truncated: the concatenation of the whitespace-separated words of
its parts is exactly the list of whitespace-separated words of the
paragraph. -/
theorem C4_chunking_amended (size : Nat) (text : List Char) :
    ('\r' ∉ text →
      (∀ p ∈ poster.pySplitPara text, poster.hasContent p = true) →
      (∀ p ∈ poster.pySplitPara text, p.length ≤ size) →
      poster.joinSep ['\n', '\n'] (poster.chunk_text size text) = text) ∧
    ((∀ p ∈ poster.chunkParas text, p.length ≤ size) →
      ∀ c ∈ poster.chunk_text size text, c.length ≤ size) ∧
    (∀ p : List Char,
      (poster.split_long size p).flatMap poster.wsWords = poster.wsWords p) := by
  refine ⟨?_, ?_, fun p => poster.split_long_words size p⟩
  · intro hcr hcontent hlen
    unfold poster.chunk_text
    have hnorm : poster.normNewlines text = text :=
      poster.normNewlines_of_no_cr text hcr
    have hparas : poster.chunkParas text = poster.pySplitPara text := by
      unfold poster.chunkParas
      rw [hnorm]
      exact List.filter_eq_self.mpr hcontent
    rw [hparas]
    have hjoin := poster.chunkFold_join size (poster.pySplitPara text) [] []
      (fun p hp => ⟨fun hnil => by
          subst hnil
          have := hcontent [] hp
          simp [poster.hasContent] at this,
        hlen p hp⟩)
    rw [hjoin]
    simpa using poster.joinSep_splitPara text
  · intro hlen c hc
    unfold poster.chunk_text at hc
    exact poster.chunkFold_bound size (poster.chunkParas text) [] []
      hlen (by simp) (by simp) c hc

/-- C4 amended, witnessed at concrete inputs: reconstruction for
"hi\n\nyo" at size 4096, the size bound at size 4, and word preservation
for `split_long 3` on "ab cd". -/
theorem C4_chunking_amended_witness :
    poster.joinSep ['\n', '\n']
        (poster.chunk_text 4096 ['h', 'i', '\n', '\n', 'y', 'o'])
        = ['h', 'i', '\n', '\n', 'y', 'o'] ∧
    (∀ c ∈ poster.chunk_text 4 ['h', 'i', '\n', '\n', 'y', 'o'],
      c.length ≤ 4) ∧
    (poster.split_long 3 ['a', 'b', ' ', 'c', 'd']).flatMap poster.wsWords
        = poster.wsWords ['a', 'b', ' ', 'c', 'd'] :=
  ⟨(C4_chunking_amended 4096 ['h', 'i', '\n', '\n', 'y', 'o']).1
      (by decide) (by decide) (by decide),
   (C4_chunking_amended 4 ['h', 'i', '\n', '\n', 'y', 'o']).2.1 (by decide),
   (C4_chunking_amended 3 []).2.2 ['a', 'b', ' ', 'c', 'd']⟩

/-! ## The article pipeline (src/main.py)

`parse_and_save` (lines 282-428) is embedded as a pure function over an
environment of oracles: the SHA-256 digest function, the translation
provider (`ts.translate_text`), the per-URL image saver (`save_image`,
returning the saved path or `none` after exhausted retries), the
extraction result of `parse_full_article`, and the parsed content of the
existing `meta.json`. Effects (provider calls, download attempts, file
writes) are recorded in the output. The completion order of the
threaded image downloads is abstracted as URL order (only the set of
saved paths is behaviourally relevant downstream); the construction of
`full_html_content` happens in poster.py and is modelled there. -/

namespace mainpy

/-- Outcome of one `ts.translate_text` provider call: a translated string,
a non-string result, or a raised exception. -/
inductive TransResult where
  | ok (t : String)
  | nonstr
  | exn
  deriving DecidableEq

/-- A Python value reaching `translate_text`'s `text` parameter: either a
string, or the raw RSS title dict `{"rendered": ...}` (which is what
`parse_and_save` actually passes for the title, src/main.py line 320). -/
inductive PyTextVal where
  | pstr (s : String)
  | pdict (rendered : String)
  deriving DecidableEq

/-- `translate_text` from src/main.py (lines 175-190): returns `""` for
falsy or non-string input, the provider's string on success, and the
original argument when the provider returns a non-string or raises. It
never propagates an exception. -/
def translate_text (provider : String → TransResult) (text : PyTextVal) :
    String :=
  match text with
  | .pdict _ => ""
  | .pstr s =>
    if s = "" then ""
    else
      match provider s with
      | .ok t => t
      | .nonstr => s
      | .exn => s

/-- Number of provider (network) calls a single `translate_text` invocation
makes: zero when the type/emptiness guard short-circuits, one otherwise. -/
def providerCallsOf : PyTextVal → Nat
  | .pdict _ => 0
  | .pstr s => if s = "" then 0 else 1

/-- Python `f"{x}"` on a value reaching the translated-file header. -/
def pyFStr : PyTextVal → String
  | .pstr s => s
  | .pdict r => "\x7b'rendered': '" ++ r ++ "'\x7d"

/-- Characters kept by `re.sub(r'[^\w\s-]', '', ...)` (ASCII `\w`). -/
def slugKeep (c : Char) : Bool :=
  c.isAlphanum || c = '_' || PyPrim.pyIsSpace c || c = '-'

/-- Character class of `re.sub(r'[-\s]+', '-', ...)`. -/
def isDashWS (c : Char) : Bool :=
  PyPrim.pyIsSpace c || c = '-'

/-- Collapse every run of `[-\s]` characters to a single `-` (the second
regex of the slug computation); the flag records whether the previous
character was inside such a run. -/
def collapseDWAux : Bool → List Char → List Char
  | _, [] => []
  | prev, c :: rest =>
    if isDashWS c then
      if prev then collapseDWAux true rest
      else '-' :: collapseDWAux true rest
    else c :: collapseDWAux false rest

/-- The slug computation of `parse_and_save` (src/main.py lines 290-291):
strip non-word characters, strip, lowercase, collapse dash/space runs. -/
def slugify (t : String) : String :=
  String.mk (collapseDWAux false
    ((PyPrim.pyStrip (t.toList.filter slugKeep)).map Char.toLower))

/-- The on-disk `meta.json` record (and the in-memory `meta` dict built by
`parse_and_save`): every field optional, `none` meaning the key is absent
(`dict.get` semantics). `date` is kept as an opaque optional token. -/
structure MetaRec where
  id : Option String := none
  slug : Option String := none
  date : Option String := none
  link : Option String := none
  title : Option PyTextVal := none
  text_file : Option String := none
  images : List String := []
  posted : Option Bool := none
  hash : Option String := none
  description : Option String := none
  translated_to : Option String := none
  translated_paras : Option (List String) := none
  translated_file : Option String := none
  deriving DecidableEq

/-- An RSS article descriptor as `parse_and_save` consumes it
(`article_info`): guid, the `title["rendered"]` string, link, parsed
date, description. -/
structure Descriptor where
  guid : String
  titleRendered : String
  link : String := ""
  date : Option String := none
  description : String := ""
  deriving DecidableEq

/-- The oracle environment of one `parse_and_save` run. -/
structure PSEnv where
  sha256 : String → String
  provider : String → TransResult
  imgSave : String → Option String
  extraction : String × List String
  existingMeta : Option MetaRec

/-- Observable outcome of one `parse_and_save` run: returned record,
number of provider calls, number of attempted image downloads, contents
written to `content.txt`, path/contents written to the translated text
file, record written to `meta.json`, and whether the run aborted at the
extraction check (the `if not full_article_text` skip). -/
structure PSOut where
  result : Option MetaRec := none
  providerCalls : Nat := 0
  downloadAttempts : Nat := 0
  wroteContent : Option String := none
  wroteTrans : Option (String × String) := none
  wroteMeta : Option MetaRec := none
  extractionFailed : Bool := false
  deriving DecidableEq

/-- The cached-record short-circuit condition of src/main.py lines 308-315:
a parsed `meta.json` exists whose `hash` equals the fresh content hash,
whose `translated_to` (default `""`) equals the requested language, and
whose `id` equals the descriptor's guid. -/
def cacheHit (existing : Option MetaRec) (h translate_to aid : String) :
    Bool :=
  match existing with
  | some m =>
    decide (m.hash = some h) && decide (m.translated_to.getD "" = translate_to)
      && decide (m.id = some aid)
  | none => false

/-- The clean paragraph list of the body translation step (src/main.py
line 387): split the raw text on blank lines, strip each piece, keep the
nonempty ones. -/
def cleanParasOf (raw : String) : List String :=
  (((poster.pySplitPara raw.toList).map PyPrim.pyStrip).filter
    (fun l => !l.isEmpty)).map String.mk

/-- `parse_and_save` from src/main.py (lines 282-428). Control flow follows
the source: extraction-empty skip; cache short-circuit; title
"translation" (the raw title dict is passed, so `translate_text`'s type
guard yields `""` without a provider call); concurrent image downloads
(skip with no record when none saved); `content.txt` write; body
translation with per-paragraph provider fallback, or reuse of a cached
translation; `meta.json` write. The outer retry loops around the
translation calls are invisible because `translate_text` never raises. -/
def parse_and_save (env : PSEnv) (d : Descriptor) (translate_to : String) :
    PSOut :=
  let aid := d.guid
  let slug := slugify d.titleRendered
  let artDir := "articles/" ++ aid ++ "_" ++ slug
  let ftext := env.extraction.1
  let furls := env.extraction.2
  if ftext = "" then
    { extractionFailed := true }
  else
    let h := env.sha256 ftext
    if cacheHit env.existingMeta h translate_to aid then
      { result := env.existingMeta }
    else
      let titleVal : PyTextVal :=
        if translate_to ≠ "" then
          .pstr (translate_text env.provider (.pdict d.titleRendered))
        else .pdict d.titleRendered
      let titleCalls :=
        if translate_to ≠ "" then providerCallsOf (.pdict d.titleRendered)
        else 0
      let images := furls.filterMap env.imgSave
      let downloads := furls.length
      if images = [] then
        { providerCalls := titleCalls, downloadAttempts := downloads }
      else
        let meta0 : MetaRec :=
          { id := some aid, slug := some slug, date := d.date,
            link := some d.link, title := some titleVal,
            text_file := some (artDir ++ "/content.txt"), images := images,
            posted := some false, hash := some h,
            description := some d.description }
        if translate_to ≠ "" then
          let old := env.existingMeta.getD {}
          if old.hash ≠ some h ∨ old.translated_to ≠ some translate_to then
            let cleanParas := cleanParasOf ftext
            if cleanParas = [] then
              let meta := { meta0 with translated_to := some "" }
              { result := some meta, providerCalls := titleCalls,
                downloadAttempts := downloads, wroteContent := some ftext,
                wroteMeta := some meta }
            else
              let translated := cleanParas.map
                (fun p => translate_text env.provider (.pstr p))
              let bodyCalls :=
                (cleanParas.map (fun p => providerCallsOf (.pstr p))).sum
              let transPath :=
                artDir ++ "/content." ++ translate_to ++ ".txt"
              let transContents :=
                pyFStr titleVal ++ "\n\n\n" ++
                  String.intercalate "\n\n" translated
              let meta := { meta0 with
                translated_to := some translate_to,
                translated_paras := some translated,
                translated_file := some transPath,
                text_file := some transPath }
              { result := some meta, providerCalls := titleCalls + bodyCalls,
                downloadAttempts := downloads, wroteContent := some ftext,
                wroteTrans := some (transPath, transContents),
                wroteMeta := some meta }
          else
            let transPath := artDir ++ "/content." ++ translate_to ++ ".txt"
            let meta := { meta0 with
              text_file := some transPath,
              translated_to := some translate_to }
            { result := some meta, providerCalls := titleCalls,
              downloadAttempts := downloads, wroteContent := some ftext,
              wroteMeta := some meta }
        else
          { result := some meta0, providerCalls := titleCalls,
            downloadAttempts := downloads, wroteContent := some ftext,
            wroteMeta := some meta0 }

end mainpy

namespace mainpy

/-- `load_posted_ids` from src/main.py (lines 40-54): every item of the
JSON list is converted with `str(...)`; missing or unreadable files give
the empty set. (A non-list JSON top level is outside the model: the
source would iterate dict keys or string characters there.) The set is
modelled as a duplicate-free list. -/
def load_posted_ids (file : StateFile) : List String :=
  match file with
  | .content items => (items.map PyPrim.pyStr).dedup
  | _ => []

/-- An in-memory catalog entry: the fields of a catalog-file dict (or of an
appended `meta` record) that the pipeline reads or persists — `item["id"]`
for the duplicate filter and `item.get("hash"/"translated_to", "")` for
the saved projection. -/
structure CatItem where
  id : PJson
  hash : Option String := none
  translated_to : Option String := none
  deriving DecidableEq

/-- The minimal projection written by `save_catalog` (src/main.py
lines 149-173): `{id, hash, translated_to}` with `""` defaults. -/
structure CatMin where
  id : PJson
  hash : String
  translated_to : String
  deriving DecidableEq

/-- The projection `save_catalog` applies to each entry. -/
def catProject (c : CatItem) : CatMin :=
  { id := c.id, hash := c.hash.getD "", translated_to := c.translated_to.getD "" }

/-- The catalog entry contributed by an appended `meta` record: its id is
the guid string. -/
def metaToCat (g : String) (m : MetaRec) : CatItem :=
  { id := .jstr g, hash := m.hash, translated_to := m.translated_to }

/-- One RSS entry of a pipeline run together with its oracle environment. -/
structure PipeEntry where
  desc : Descriptor
  env : PSEnv

/-- The in-memory state of the `for entry in rss_entries` loop of
src/main.py `main` (lines 528-548): the catalog list, the id set
`existing_ids_in_catalog`, `new_articles_processed_in_run`,
`updated_guids_to_post`, and (for the theorems) the list of guids for
which `parse_and_save` was invoked. -/
structure PipeState where
  catalog : List CatItem
  idSet : List PJson
  newCount : Nat
  updatedGuids : List String
  processed : List String

/-- One iteration of the pipeline loop (src/main.py lines 528-548): skip
when the guid is in the posted set; otherwise run `parse_and_save` and,
when it returns a record, replace any same-id catalog entry, append the
new record, and mark the guid for the posted-file update. -/
def pipeStep (posted : List String) (lang : String) (st : PipeState)
    (e : PipeEntry) : PipeState :=
  let g := e.desc.guid
  if g ∈ posted then st
  else
    let out := parse_and_save e.env e.desc lang
    let processed1 := st.processed ++ [g]
    match out.result with
    | none => { st with processed := processed1 }
    | some meta =>
      let inCat : Bool := decide (PJson.jstr g ∈ st.idSet)
      let catalog1 :=
        if inCat then st.catalog.filter (fun c => c.id ≠ PJson.jstr g)
        else st.catalog
      { catalog := catalog1 ++ [metaToCat g meta],
        idSet := if PJson.jstr g ∈ st.idSet then st.idSet
                 else st.idSet ++ [PJson.jstr g],
        newCount := if inCat then st.newCount else st.newCount + 1,
        updatedGuids := if g ∈ st.updatedGuids then st.updatedGuids
                        else st.updatedGuids ++ [g],
        processed := processed1 }

/-- Observable outcome of a pipeline run: which guids were processed, the
final in-memory catalog, the saved catalog projection (when any truly new
article was processed) and the list written to the posted-state file
(`none` when the run does not write it). The union written to the posted
file is rendered as prior ids followed by the new guids. -/
structure PipeOut where
  processed : List String
  catalog : List CatItem
  newCount : Nat
  updatedGuids : List String
  catalogSaved : Option (List CatMin)
  ledgerWritten : Option (List String)

/-- `main` from src/main.py (lines 489-572) restricted to its state
machine: load the posted set, fold the pipeline loop over the RSS
entries starting from the loaded catalog, then — only when at least one
truly new article was processed — save the catalog projection and
overwrite the posted-state file with the union of the prior posted set
and the processed guids. -/
def pipelineMain (postedFile : StateFile) (catalog0 : List CatItem)
    (entries : List PipeEntry) (lang : String) : PipeOut :=
  let posted := load_posted_ids postedFile
  let st0 : PipeState :=
    { catalog := catalog0, idSet := (catalog0.map (fun c => c.id)).dedup,
      newCount := 0, updatedGuids := [], processed := [] }
  let st := entries.foldl (pipeStep posted lang) st0
  { processed := st.processed, catalog := st.catalog, newCount := st.newCount,
    updatedGuids := st.updatedGuids,
    catalogSaved :=
      if 0 < st.newCount then some (st.catalog.map catProject) else none,
    ledgerWritten :=
      if 0 < st.newCount then
        some (posted ++ st.updatedGuids.filter (fun g => g ∉ posted))
      else none }

end mainpy

/-! ## The publisher run (src/poster.py, `main`, lines 391-550)

Directory scanning, `validate_article` and the assembly of
`full_html_content` (file read, title-stripping regex, HTML escaping) are
I/O; they are abstracted into a payload carrying the resulting data: the
assembled `full_html_content` character list, whether images are present,
the media-group outcome, the transport's per-chunk responses, and whether
an exception interrupts the article's publication. What is modelled
exactly is the state machine: the posted-set filter, the sort by id, the
batch limit, the all-text-chunks-accepted condition for adding an id to
`new_ids` (the media-group result is deliberately ignored by the source),
and the final `save_posted_ids` call. -/

namespace poster

/-- Everything `main` derives from one validated article directory before
sending: the assembled `full_html_content`, image presence, the
media-group transport outcome, the transport's response to the i-th text
chunk, and whether an exception interrupts this article (caught at
src/poster.py line 533, marking it unposted). -/
structure PubPayload where
  fullContent : List Char
  hasImages : Bool := false
  mediaOk : Bool := true
  sendChunkOk : Nat → Bool
  raises : Bool := false

/-- One directory under the parsed root: the `meta.json` id (absent or
null → skipped) and the validated payload (`none` when `validate_article`
fails or `meta.json` is unreadable). -/
structure PubDirEntry where
  metaId : Option PJson
  payload : Option PubPayload

/-- The check `art_meta["id"] not in posted_ids_old` (src/poster.py
line 420): membership of a JSON value in a set of ints. Dicts are
unhashable, so the test raises (`none`, caught by the per-directory
handler which skips the article); strings never equal ints. -/
def pjHashableNotIn : PJson → List Int → Option Bool
  | .jint n, s => some (decide (n ∉ s))
  | .jstr _, _ => some true
  | .jdictNoId, _ => none
  | .jdictId _, _ => none

/-- The article-collection loop (src/poster.py lines 414-443): keep the
directories whose meta has a non-null id that is not in the posted set
and that validate successfully. -/
def collectArts (posted : List Int) (dirs : List PubDirEntry) :
    List (PJson × PubPayload) :=
  dirs.filterMap fun d =>
    match d.metaId with
    | none => none
    | some mid =>
      match pjHashableNotIn mid posted with
      | some true =>
        match d.payload with
        | some p => some (mid, p)
        | none => none
      | _ => none

/-- Stable insertion for `articles_to_post.sort(key=lambda x: x["id"])`;
`none` propagates the `TypeError` of comparing incomparable ids. -/
def pyInsertByKey (x : PJson × PubPayload) :
    List (PJson × PubPayload) → Option (List (PJson × PubPayload))
  | [] => some [x]
  | y :: ys =>
    match PyPrim.pyLtJ x.1 y.1 with
    | none => none
    | some true => some (x :: y :: ys)
    | some false =>
      match pyInsertByKey x ys with
      | none => none
      | some r => some (y :: r)

/-- `articles_to_post.sort(key=lambda x: x["id"])` (ascending, stable). -/
def pySortByKey :
    List (PJson × PubPayload) → Option (List (PJson × PubPayload))
  | [] => some []
  | x :: xs =>
    match pySortByKey xs with
    | none => none
    | some r => pyInsertByKey x r

/-- Whether an article's publication succeeds (src/poster.py lines
470-535): no exception, and every chunk of
`chunk_text(full_html_content)` is accepted by the transport (the loop
breaks at the first rejected chunk; the media-group outcome does not
participate). Telegram's chunk size is 4096. -/
def articleDelivered (p : PubPayload) : Bool :=
  !p.raises &&
    (List.range (chunk_text 4096 p.fullContent).length).all p.sendChunkOk

/-- State of the publication loop: articles sent and `new_ids`. -/
structure PubState where
  sent : Nat
  newIds : List PJson

/-- One iteration of the publication loop (src/poster.py lines 457-542):
stop once the batch limit is reached, otherwise deliver and record the id
on full success. -/
def limitReached (limit : Option Nat) (sent : Nat) : Bool :=
  match limit with
  | some l => decide (l ≤ sent)
  | none => false

/-- One iteration body continued: deliver and record on full success. -/
def pubStep (limit : Option Nat) (st : PubState) (a : PJson × PubPayload) :
    PubState :=
  if limitReached limit st.sent then st
  else if articleDelivered a.2 then
    { sent := st.sent + 1,
      newIds := if a.1 ∈ st.newIds then st.newIds else st.newIds ++ [a.1] }
  else st

/-- Observable outcome of a publisher run: the ids newly delivered, the
count sent, and the list the final `save_posted_ids` writes (`none` when
the run returned early with no candidate articles, or the save raised). -/
structure PubOut where
  newIds : List PJson
  sent : Nat
  savedLedger : Option (List PJson)
  deriving DecidableEq

/-- `main` from src/poster.py (lines 391-550) restricted to its state
machine: load the posted ids, collect and sort candidate articles
(`none` on the sort's `TypeError`), run the delivery loop, then save
`posted_ids_old ∪ new_ids`. -/
def pubMain (state : StateFile) (dirs : List PubDirEntry)
    (limit : Option Nat) : Option PubOut :=
  let posted := load_posted_ids state
  let arts := collectArts posted dirs
  match pySortByKey arts with
  | none => none
  | some sortedArts =>
    let st := sortedArts.foldl (pubStep limit) { sent := 0, newIds := [] }
    let postedJ := posted.map PJson.jint
    let allIds := postedJ ++ st.newIds.filter (fun x => x ∉ postedJ)
    some { newIds := st.newIds, sent := st.sent,
           savedLedger :=
             if sortedArts.isEmpty then none
             else save_posted_ids MAX_POSTED_RECORDS allIds state }

end poster

/-- C3: when a parsed meta.json exists whose stored hash equals the digest
of the freshly extracted text, whose stored translated_to (default "")
equals the requested target language, and whose stored id equals the
descriptor's guid, `parse_and_save` returns the stored record unchanged,
makes zero translation-provider calls, attempts zero image downloads, and
writes nothing. -/
theorem C3_cache_short_circuit (env : mainpy.PSEnv) (d : mainpy.Descriptor)
    (lang : String) (m : mainpy.MetaRec)
    (ht : env.extraction.1 ≠ "")
    (hm : env.existingMeta = some m)
    (hhash : m.hash = some (env.sha256 env.extraction.1))
    (htr : m.translated_to.getD "" = lang)
    (hid : m.id = some d.guid) :
    mainpy.parse_and_save env d lang =
      { result := some m, providerCalls := 0, downloadAttempts := 0,
        wroteContent := none, wroteTrans := none, wroteMeta := none,
        extractionFailed := false } := by
  have hhit : mainpy.cacheHit (some m)
      (env.sha256 env.extraction.1) lang d.guid = true := by
    simp [mainpy.cacheHit, hhash, htr, hid]
  unfold mainpy.parse_and_save
  rw [hm]
  simp [ht, hhit]

def envC3w : mainpy.PSEnv :=
  { sha256 := fun s => "H" ++ s, provider := fun _ => .exn,
    imgSave := fun u => some u, extraction := ("body", ["u"]),
    existingMeta := some { id := some "g", hash := some "Hbody",
                           translated_to := some "ru" } }

/-- C3 witnessed at a concrete cached record. -/
theorem C3_cache_short_circuit_witness :
    mainpy.parse_and_save envC3w { guid := "g", titleRendered := "T" } "ru" =
      { result := some { id := some "g", hash := some "Hbody",
                         translated_to := some "ru" },
        providerCalls := 0, downloadAttempts := 0, wroteContent := none,
        wroteTrans := none, wroteMeta := none, extractionFailed := false } :=
  C3_cache_short_circuit envC3w { guid := "g", titleRendered := "T" } "ru"
    { id := some "g", hash := some "Hbody", translated_to := some "ru" }
    (by decide) rfl rfl rfl rfl

def envC5 : mainpy.PSEnv :=
  { sha256 := fun s => "H" ++ s, provider := fun _ => .exn,
    imgSave := fun u => some u, extraction := ("body", ["u"]),
    existingMeta := none }

/-- C5: the claim says a Pipeline run never modifies the posted-state file.
Evaluating the pipeline at a run that processes one new article shows the
code overwriting that file with the union of the prior posted set and the
new guid (src/main.py lines 551-562), although the flag's own help text
calls the file read-only. -/
theorem C5_pipeline_writes_ledger :
    (mainpy.pipelineMain .missing []
        [{ desc := { guid := "g1", titleRendered := "T", link := "L" },
           env := envC5 }] "").ledgerWritten = some ["g1"] ∧
    (mainpy.pipelineMain .missing []
        [{ desc := { guid := "g1", titleRendered := "T", link := "L" },
           env := envC5 }] "").newCount = 1 := ⟨rfl, rfl⟩

theorem parse_and_save_empty_text (env : mainpy.PSEnv)
    (d : mainpy.Descriptor) (lang : String)
    (hft : env.extraction.1 = "") :
    mainpy.parse_and_save env d lang = { extractionFailed := true } := by
  unfold mainpy.parse_and_save
  simp [hft]

theorem psout_extractionFailed_false (env : mainpy.PSEnv)
    (d : mainpy.Descriptor) (lang : String)
    (hft : env.extraction.1 ≠ "") :
    (mainpy.parse_and_save env d lang).extractionFailed = false := by
  unfold mainpy.parse_and_save
  simp only [hft, if_false]
  repeat' split
  all_goals rfl

/-- C8 amended: a descriptor fails at the extraction step exactly when
extraction yields no usable text — the presence of extracted image URLs
is irrelevant to this check; and the empty-text skip returns no record
with no translation calls, no downloads and no writes. -/
theorem C8_extraction_skip_amended (env : mainpy.PSEnv)
    (d : mainpy.Descriptor) (lang : String) :
    ((mainpy.parse_and_save env d lang).extractionFailed = true ↔
      env.extraction.1 = "") ∧
    (env.extraction.1 = "" →
      mainpy.parse_and_save env d lang = { extractionFailed := true }) := by
  constructor
  · constructor
    · intro h
      by_contra hft
      rw [psout_extractionFailed_false env d lang hft] at h
      exact absurd h (by simp)
    · intro h
      unfold mainpy.parse_and_save
      simp [h]
  · intro hft
    exact parse_and_save_empty_text env d lang hft

def envC8 : mainpy.PSEnv :=
  { sha256 := fun s => "H" ++ s, provider := fun _ => .exn,
    imgSave := fun u => some u, extraction := ("", ["u"]),
    existingMeta := none }

/-- C8 counterexample: extraction yielding no text but one image URL is
skipped at the extraction step, although the claim says processing should
continue when at least one image URL was extracted. -/
theorem C8_extraction_skip_counterexample :
    (mainpy.parse_and_save envC8 { guid := "g", titleRendered := "T" }
        "").extractionFailed = true ∧
    envC8.extraction.2 ≠ [] ∧
    (mainpy.parse_and_save envC8 { guid := "g", titleRendered := "T" }
        "").result = none :=
  ⟨rfl, by decide, rfl⟩

/-- C8 amended witnessed at a concrete empty-text extraction. -/
theorem C8_extraction_skip_amended_witness :
    mainpy.parse_and_save envC8 { guid := "g", titleRendered := "T" } "" =
      { extractionFailed := true } :=
  (C8_extraction_skip_amended envC8 { guid := "g", titleRendered := "T" }
    "").2 rfl

def envC9 : mainpy.PSEnv :=
  { sha256 := fun s => "H" ++ s, provider := fun _ => .exn,
    imgSave := fun u => some u, extraction := ("Hello body", ["u"]),
    existingMeta := none }

/-- C9: the claim says that when title translation fails the original
untranslated title is used. Evaluating `parse_and_save` with an
always-failing provider shows the persisted title is the empty string —
neither a translation nor the original "Hello" — because the raw title
dict is passed to `translate_text`, whose type guard returns "" before
any provider call; the per-paragraph body fallback, by contrast, does
return the original text. -/
theorem C9_title_fallback_broken :
    ((mainpy.parse_and_save envC9 { guid := "g", titleRendered := "Hello" }
        "ru").wroteMeta.map mainpy.MetaRec.title)
      = some (some (.pstr "")) ∧
    ((mainpy.parse_and_save envC9 { guid := "g", titleRendered := "Hello" }
        "ru").wroteMeta.map mainpy.MetaRec.translated_paras)
      = some (some ["Hello body"]) ∧
    (∀ s, envC9.provider s = .exn) :=
  ⟨rfl, rfl, fun _ => rfl⟩

def pubPayloadOk : poster.PubPayload :=
  { fullContent := ['x'], sendChunkOk := fun _ => true }

/-- C2 counterexample: a non-numeric string guid stored in the Ledger
state file is dropped by the publisher's `load_posted_ids` (it only keeps
ids convertible to int), so an article with that very id is delivered
again in the same run — the claim's "never redelivered" fails for guid
ids. -/
theorem C2_guid_redelivered_counterexample :
    (poster.pubMain (.content [.jstr "abc"])
        [{ metaId := some (.jstr "abc"), payload := some pubPayloadOk }]
        none).map poster.PubOut.newIds = some [.jstr "abc"] := by rfl

theorem parse_and_save_meta_content (env : mainpy.PSEnv)
    (d : mainpy.Descriptor) (lang : String)
    (hft : env.extraction.1 ≠ "") :
    ((mainpy.parse_and_save env d lang).wroteMeta = none ∧
      (mainpy.parse_and_save env d lang).wroteContent = none) ∨
    ((∃ mm, (mainpy.parse_and_save env d lang).wroteMeta = some mm ∧
        mm.hash = some (env.sha256 env.extraction.1)) ∧
      (mainpy.parse_and_save env d lang).wroteContent =
        some env.extraction.1) := by
  unfold mainpy.parse_and_save
  simp only [hft, if_false]
  repeat' split
  all_goals
    first
      | exact Or.inl ⟨rfl, rfl⟩
      | exact Or.inr ⟨⟨_, rfl, rfl⟩, rfl⟩

/-- C10: whenever `parse_and_save` writes a meta.json record, the record's
hash field equals the digest of exactly the string written to that
article's content.txt. -/
theorem C10_hash_matches_content (env : mainpy.PSEnv)
    (d : mainpy.Descriptor) (lang : String) (m : mainpy.MetaRec)
    (h : (mainpy.parse_and_save env d lang).wroteMeta = some m) :
    ∃ c, (mainpy.parse_and_save env d lang).wroteContent = some c ∧
      m.hash = some (env.sha256 c) := by
  by_cases hft : env.extraction.1 = ""
  · rw [parse_and_save_empty_text env d lang hft] at h
    simp at h
  · rcases parse_and_save_meta_content env d lang hft with ⟨h1, _⟩ | ⟨⟨mm, h1, h2⟩, h3⟩
    · rw [h1] at h; simp at h
    · rw [h1] at h
      obtain rfl : mm = m := by injection h
      exact ⟨env.extraction.1, h3, h2⟩

/-- C10 witnessed at a concrete run that writes a record. -/
theorem C10_hash_matches_content_witness :
    ∃ c, (mainpy.parse_and_save envC5
        { guid := "g1", titleRendered := "T", link := "L" } "").wroteContent
        = some c ∧
      (some "Hbody" : Option String) = some (envC5.sha256 c) :=
  C10_hash_matches_content envC5
    { guid := "g1", titleRendered := "T", link := "L" } ""
    { id := some "g1", slug := some "t", link := some "L",
      title := some (.pdict "T"), text_file := some "articles/g1_t/content.txt",
      images := ["u"], posted := some false, hash := some "Hbody",
      description := some "" }
    rfl

/-- C7: when the download step runs (extraction succeeded, no cache hit)
and zero images end up saved, `parse_and_save` returns no record and
writes no meta.json; and a pipeline-loop step whose `parse_and_save`
returns no record leaves the in-memory catalog, the pending posted-file
guids and the new-article counter unchanged, so the descriptor
contributes no Catalog entry in memory or on disk. -/
theorem C7_zero_images_no_record :
    (∀ (env : mainpy.PSEnv) (d : mainpy.Descriptor) (lang : String),
      env.extraction.1 ≠ "" →
      mainpy.cacheHit env.existingMeta (env.sha256 env.extraction.1) lang
          d.guid = false →
      env.extraction.2.filterMap env.imgSave = [] →
      (mainpy.parse_and_save env d lang).result = none ∧
        (mainpy.parse_and_save env d lang).wroteMeta = none ∧
        (mainpy.parse_and_save env d lang).wroteContent = none) ∧
    (∀ (posted : List String) (lang : String) (st : mainpy.PipeState)
        (e : mainpy.PipeEntry),
      (mainpy.parse_and_save e.env e.desc lang).result = none →
      (mainpy.pipeStep posted lang st e).catalog = st.catalog ∧
        (mainpy.pipeStep posted lang st e).updatedGuids = st.updatedGuids ∧
        (mainpy.pipeStep posted lang st e).newCount = st.newCount) := by
  constructor
  · intro env d lang hft hhit himg
    unfold mainpy.parse_and_save
    simp [hft, hhit, himg]
  · intro posted lang st e hres
    unfold mainpy.pipeStep
    by_cases hp : e.desc.guid ∈ posted
    · simp [hp]
    · simp [hp, hres]

def envC7 : mainpy.PSEnv :=
  { sha256 := fun s => "H" ++ s, provider := fun _ => .exn,
    imgSave := fun _ => none, extraction := ("body", ["u"]),
    existingMeta := none }

/-- C7 witnessed at a concrete all-downloads-fail run. -/
theorem C7_zero_images_no_record_witness :
    ((mainpy.parse_and_save envC7 { guid := "g", titleRendered := "T" }
        "").result = none ∧
      (mainpy.parse_and_save envC7 { guid := "g", titleRendered := "T" }
        "").wroteMeta = none ∧
      (mainpy.parse_and_save envC7 { guid := "g", titleRendered := "T" }
        "").wroteContent = none) ∧
    ((mainpy.pipeStep [] ""
        { catalog := [{ id := .jstr "old" }], idSet := [.jstr "old"],
          newCount := 0, updatedGuids := [], processed := [] }
        { desc := { guid := "g", titleRendered := "T" },
          env := envC7 }).catalog = [{ id := .jstr "old" }]) :=
  ⟨C7_zero_images_no_record.1 envC7 { guid := "g", titleRendered := "T" } ""
      (by decide) rfl rfl,
   (C7_zero_images_no_record.2 [] ""
      { catalog := [{ id := .jstr "old" }], idSet := [.jstr "old"],
        newCount := 0, updatedGuids := [], processed := [] }
      { desc := { guid := "g", titleRendered := "T" }, env := envC7 }
      rfl).1⟩


namespace poster

theorem pubStep_newIds_mem (limit : Option Nat) (st : PubState)
    (a : PJson × PubPayload) (aid : PJson)
    (h : aid ∈ (pubStep limit st a).newIds) :
    aid ∈ st.newIds ∨ (a.1 = aid ∧ articleDelivered a.2 = true) := by
  unfold pubStep at h
  split at h
  · exact Or.inl h
  · split at h
    · rename_i hdel
      by_cases hmem : a.1 ∈ st.newIds
      · simp only [hmem, if_true] at h
        exact Or.inl h
      · simp only [hmem, if_false] at h
        rcases List.mem_append.mp h with h' | h'
        · exact Or.inl h'
        · simp at h'
          exact Or.inr ⟨h'.symm, hdel⟩
    · exact Or.inl h

theorem pubFold_newIds_mem (limit : Option Nat)
    (l : List (PJson × PubPayload)) :
    ∀ (st : PubState) (aid : PJson),
      aid ∈ (l.foldl (pubStep limit) st).newIds →
      aid ∈ st.newIds ∨ ∃ a ∈ l, a.1 = aid ∧ articleDelivered a.2 = true := by
  induction l with
  | nil => intro st aid h; exact Or.inl h
  | cons a rest ih =>
    intro st aid h
    rw [List.foldl_cons] at h
    rcases ih (pubStep limit st a) aid h with h' | ⟨b, hb, hk, hd⟩
    · rcases pubStep_newIds_mem limit st a aid h' with h'' | ⟨hk, hd⟩
      · exact Or.inl h''
      · exact Or.inr ⟨a, by simp, hk, hd⟩
    · exact Or.inr ⟨b, by simp [hb], hk, hd⟩

theorem pyInsertByKey_mem (x : PJson × PubPayload) :
    ∀ (l r : List (PJson × PubPayload)), pyInsertByKey x l = some r →
      ∀ a ∈ r, a = x ∨ a ∈ l := by
  intro l
  induction l with
  | nil =>
    intro r hr a ha
    simp only [pyInsertByKey] at hr
    obtain rfl : [x] = r := by injection hr
    simp at ha
    exact Or.inl ha
  | cons y ys ih =>
    intro r hr a ha
    simp only [pyInsertByKey] at hr
    cases hlt : PyPrim.pyLtJ x.1 y.1 with
    | none => simp only [hlt] at hr; exact absurd hr (by simp)
    | some b =>
      simp only [hlt] at hr
      cases b with
      | true =>
        obtain rfl : x :: y :: ys = r := by injection hr
        rcases ha with _ | ⟨_, ha⟩
        · exact Or.inl rfl
        · exact Or.inr ha
      | false =>
        cases hrec : pyInsertByKey x ys with
        | none => simp only [hrec] at hr; exact absurd hr (by simp)
        | some r' =>
          simp only [hrec] at hr
          obtain rfl : y :: r' = r := by injection hr
          rcases ha with _ | ⟨_, ha⟩
          · exact Or.inr (by simp)
          · rcases ih r' hrec a ha with h' | h'
            · exact Or.inl h'
            · exact Or.inr (by simp [h'])

theorem pySortByKey_mem :
    ∀ (l r : List (PJson × PubPayload)), pySortByKey l = some r →
      ∀ a ∈ r, a ∈ l := by
  intro l
  induction l with
  | nil =>
    intro r hr a ha
    simp only [pySortByKey] at hr
    obtain rfl : [] = r := by injection hr
    simp at ha
  | cons x xs ih =>
    intro r hr a ha
    simp only [pySortByKey] at hr
    cases hrec : pySortByKey xs with
    | none => simp only [hrec] at hr; exact absurd hr (by simp)
    | some r' =>
      simp only [hrec] at hr
      rcases pyInsertByKey_mem x r' r hr a ha with h' | h'
      · simp [h']
      · exact List.mem_cons_of_mem x (ih r' hrec a h')

theorem collectArts_mem (posted : List Int) (dirs : List PubDirEntry)
    (a : PJson × PubPayload) (h : a ∈ collectArts posted dirs) :
    ∃ d ∈ dirs, d.metaId = some a.1 ∧ d.payload = some a.2 ∧
      pjHashableNotIn a.1 posted = some true := by
  unfold collectArts at h
  rw [List.mem_filterMap] at h
  obtain ⟨d, hd, hfd⟩ := h
  refine ⟨d, hd, ?_⟩
  cases hmid : d.metaId with
  | none => simp only [hmid] at hfd; simp at hfd
  | some mid =>
    simp only [hmid] at hfd
    cases hh : pjHashableNotIn mid posted with
    | none => simp only [hh] at hfd; simp at hfd
    | some b =>
      simp only [hh] at hfd
      cases b with
      | false => simp at hfd
      | true =>
        cases hp : d.payload with
        | none => simp only [hp] at hfd; simp at hfd
        | some p =>
          simp only [hp] at hfd
          obtain rfl : (mid, p) = a := by injection hfd
          exact ⟨rfl, rfl, hh⟩

end poster

namespace PyPrim

theorem pyInsertAsc_mem (x : PJson) :
    ∀ (l r : List PJson), pyInsertAsc x l = some r →
      ∀ a ∈ r, a = x ∨ a ∈ l := by
  intro l
  induction l with
  | nil =>
    intro r hr a ha
    simp only [pyInsertAsc] at hr
    obtain rfl : [x] = r := by injection hr
    simp at ha
    exact Or.inl ha
  | cons y ys ih =>
    intro r hr a ha
    simp only [pyInsertAsc] at hr
    cases hlt : pyLtJ x y with
    | none => simp only [hlt] at hr; exact absurd hr (by simp)
    | some b =>
      simp only [hlt] at hr
      cases b with
      | true =>
        obtain rfl : x :: y :: ys = r := by injection hr
        rcases ha with _ | ⟨_, ha⟩
        · exact Or.inl rfl
        · exact Or.inr ha
      | false =>
        cases hrec : pyInsertAsc x ys with
        | none => simp only [hrec] at hr; exact absurd hr (by simp)
        | some r' =>
          simp only [hrec] at hr
          obtain rfl : y :: r' = r := by injection hr
          rcases ha with _ | ⟨_, ha⟩
          · exact Or.inr (by simp)
          · rcases ih r' hrec a ha with h' | h'
            · exact Or.inl h'
            · exact Or.inr (by simp [h'])

theorem pySortAsc_mem :
    ∀ (l r : List PJson), pySortAsc l = some r → ∀ a ∈ r, a ∈ l := by
  intro l
  induction l with
  | nil =>
    intro r hr a ha
    simp only [pySortAsc] at hr
    obtain rfl : [] = r := by injection hr
    simp at ha
  | cons x xs ih =>
    intro r hr a ha
    simp only [pySortAsc] at hr
    cases hrec : pySortAsc xs with
    | none => simp only [hrec] at hr; exact absurd hr (by simp)
    | some r' =>
      simp only [hrec] at hr
      rcases pyInsertAsc_mem x r' r hr a ha with h' | h'
      · simp [h']
      · exact List.mem_cons_of_mem x (ih r' hrec a h')

theorem pySortDesc_mem (l r : List PJson) (h : pySortDesc l = some r) :
    ∀ a ∈ r, a ∈ l := by
  intro a ha
  unfold pySortDesc at h
  cases hrec : pySortAsc l with
  | none => simp only [hrec] at h; exact absurd h (by simp)
  | some r' =>
    simp only [hrec, Option.map_some] at h
    obtain rfl : r'.reverse = r := by injection h
    exact pySortAsc_mem l r' hrec a (List.mem_reverse.mp ha)

theorem dqAppendLeft_mem (cap : Nat) (x a : PJson) (d : List PJson)
    (h : a ∈ dqAppendLeft cap x d) : a = x ∨ a ∈ d := by
  unfold dqAppendLeft at h
  have := List.mem_of_mem_take h
  rcases this with _ | ⟨_, h'⟩
  · exact Or.inl rfl
  · exact Or.inr h'

theorem dqAppendRight_mem (cap : Nat) (x a : PJson) (d : List PJson)
    (h : a ∈ dqAppendRight cap d x) : a ∈ d ∨ a = x := by
  unfold dqAppendRight at h
  split at h
  · rcases List.mem_append.mp h with h' | h'
    · exact Or.inl h'
    · simp at h'; exact Or.inr h'
  · have := List.mem_of_mem_drop h
    rcases List.mem_append.mp this with h' | h'
    · exact Or.inl h'
    · simp at h'; exact Or.inr h'

end PyPrim

namespace poster

theorem save_posted_ids_eq (cap : Nat) (allIds : List PJson)
    (file : StateFile) :
    save_posted_ids cap allIds file =
      match PyPrim.pySortDesc
          (allIds.dedup.filter (fun a => a ∉ readCurrentIds file)) with
      | none => none
      | some newDesc =>
        some ((readCurrentIds file).foldl
          (fun d x =>
            if x ∈ allIds ∧ x ∉ d then PyPrim.dqAppendRight cap d x else d)
          (newDesc.foldl (fun d x => PyPrim.dqAppendLeft cap x d) [])) := rfl

theorem save_posted_ids_subset (cap : Nat) (allIds : List PJson)
    (file : StateFile) (res : List PJson)
    (h : save_posted_ids cap allIds file = some res) :
    ∀ x ∈ res, x ∈ allIds := by
  rw [save_posted_ids_eq] at h
  cases hsort : PyPrim.pySortDesc
      (allIds.dedup.filter (fun a => a ∉ readCurrentIds file)) with
  | none => simp only [hsort] at h; exact absurd h (by simp)
  | some newDesc =>
    simp only [hsort, Option.some_inj] at h
    have hnew : ∀ a ∈ newDesc, a ∈ allIds := by
      intro a ha
      have := PyPrim.pySortDesc_mem _ _ hsort a ha
      have := List.mem_of_mem_filter this
      exact List.mem_dedup.mp (by simpa using this)
    have hd1 : ∀ a ∈ newDesc.foldl
        (fun d x => PyPrim.dqAppendLeft cap x d) [], a ∈ allIds := by
      have hgen : ∀ (l : List PJson) (d : List PJson),
          (∀ a ∈ l, a ∈ allIds) → (∀ a ∈ d, a ∈ allIds) →
          ∀ a ∈ l.foldl (fun d x => PyPrim.dqAppendLeft cap x d) d,
            a ∈ allIds := by
        intro l
        induction l with
        | nil => intro d _ hd a ha; exact hd a ha
        | cons y ys ih =>
          intro d hl hd a ha
          rw [List.foldl_cons] at ha
          refine ih (PyPrim.dqAppendLeft cap y d) (fun b hb => hl b (by simp [hb]))
            (fun b hb => ?_) a ha
          rcases PyPrim.dqAppendLeft_mem cap y b d hb with heq | hb'
          · rw [heq]; exact hl y (by simp)
          · exact hd b hb'
      exact hgen newDesc [] hnew (by simp)
    subst h
    have hgen2 : ∀ (l : List PJson) (d : List PJson),
        (∀ a ∈ d, a ∈ allIds) →
        ∀ a ∈ l.foldl (fun d x =>
            if x ∈ allIds ∧ x ∉ d then PyPrim.dqAppendRight cap d x else d) d,
          a ∈ allIds := by
      intro l
      induction l with
      | nil => intro d hd a ha; exact hd a ha
      | cons y ys ih =>
        intro d hd a ha
        rw [List.foldl_cons] at ha
        refine ih _ (fun b hb => ?_) a ha
        by_cases hc : y ∈ allIds ∧ y ∉ d
        · simp only [hc, if_true] at hb
          rcases PyPrim.dqAppendRight_mem cap y b d hb with hb' | heq
          · exact hd b hb'
          · rw [heq]; exact hc.1
        · simp only [hc, if_false] at hb
          exact hd b hb
    exact hgen2 _ _ hd1

end poster

namespace mainpy

theorem pipeStep_processed (posted : List String) (lang : String)
    (st : PipeState) (e : PipeEntry) :
    (pipeStep posted lang st e).processed = st.processed ∨
    ((pipeStep posted lang st e).processed = st.processed ++ [e.desc.guid] ∧
      e.desc.guid ∉ posted) := by
  by_cases hp : e.desc.guid ∈ posted
  · left
    unfold pipeStep
    simp [hp]
  · right
    refine ⟨?_, hp⟩
    unfold pipeStep
    simp only [hp, if_false]
    cases (parse_and_save e.env e.desc lang).result <;> rfl

theorem pipeFold_processed (posted : List String) (lang : String)
    (entries : List PipeEntry) :
    ∀ (st : PipeState) (g : String), g ∈ posted → g ∉ st.processed →
      g ∉ (entries.foldl (pipeStep posted lang) st).processed := by
  induction entries with
  | nil => intro st g _ hst; exact hst
  | cons e rest ih =>
    intro st g hg hst
    rw [List.foldl_cons]
    refine ih (pipeStep posted lang st e) g hg ?_
    rcases pipeStep_processed posted lang st e with h | ⟨h, hnp⟩
    · rw [h]; exact hst
    · rw [h]
      intro hmem
      rcases List.mem_append.mp hmem with h' | h'
      · exact hst h'
      · simp at h'
        subst h'
        exact hnp hg

end mainpy

namespace poster

theorem pubMain_eq (state : StateFile) (dirs : List PubDirEntry)
    (limit : Option Nat) :
    pubMain state dirs limit =
      match pySortByKey (collectArts (load_posted_ids state) dirs) with
      | none => none
      | some sortedArts =>
        some { newIds := (sortedArts.foldl (pubStep limit)
                 { sent := 0, newIds := [] }).newIds,
               sent := (sortedArts.foldl (pubStep limit)
                 { sent := 0, newIds := [] }).sent,
               savedLedger :=
                 if sortedArts.isEmpty then none
                 else save_posted_ids MAX_POSTED_RECORDS
                   ((load_posted_ids state).map PJson.jint ++
                     ((sortedArts.foldl (pubStep limit)
                       { sent := 0, newIds := [] }).newIds.filter
                       (fun x => x ∉ (load_posted_ids state).map PJson.jint)))
                   state } := rfl

end poster

/-- C6: an id appears in `new_ids` (and hence can be added to the Ledger)
only if some article directory with that id published with no exception
and every text chunk of its `chunk_text` output accepted by the
transport — in particular an article whose media group was sent but
whose text failed contributes nothing; and everything `save_posted_ids`
writes comes from the id set passed to it, so an id not marked delivered
is absent from the saved Ledger and will be re-attempted on a future
run. -/
theorem C6_ledger_only_if_all_chunks :
    (∀ (state : StateFile) (dirs : List poster.PubDirEntry)
        (limit : Option Nat) (out : poster.PubOut),
      poster.pubMain state dirs limit = some out →
      ∀ aid ∈ out.newIds, ∃ d ∈ dirs, d.metaId = some aid ∧
        ∃ p, d.payload = some p ∧ p.raises = false ∧
          ∀ i < (poster.chunk_text 4096 p.fullContent).length,
            p.sendChunkOk i = true) ∧
    (∀ (cap : Nat) (allIds : List PJson) (file : StateFile)
        (res : List PJson),
      poster.save_posted_ids cap allIds file = some res →
      ∀ x ∈ res, x ∈ allIds) := by
  constructor
  · intro state dirs limit out hmain aid haid
    rw [poster.pubMain_eq] at hmain
    cases hsort : poster.pySortByKey
        (poster.collectArts (poster.load_posted_ids state) dirs) with
    | none => simp only [hsort] at hmain; exact absurd hmain (by simp)
    | some sortedArts =>
      simp only [hsort, Option.some_inj] at hmain
      have hnew : aid ∈ (sortedArts.foldl (poster.pubStep limit)
          { sent := 0, newIds := [] }).newIds := by
        rw [← hmain] at haid
        simpa using haid
      rcases poster.pubFold_newIds_mem limit sortedArts _ aid hnew with h | ⟨a, ha, hk, hd⟩
      · simp at h
      · have hart := poster.pySortByKey_mem _ _ hsort a ha
        obtain ⟨d, hdmem, hmid, hpay, _⟩ :=
          poster.collectArts_mem _ _ _ hart
        refine ⟨d, hdmem, hk ▸ hmid, a.2, hpay, ?_, ?_⟩
        · have := hd
          unfold poster.articleDelivered at this
          rcases Bool.and_eq_true .. |>.mp this with ⟨h1, _⟩
          simpa using h1
        · intro i hi
          have := hd
          unfold poster.articleDelivered at this
          rcases Bool.and_eq_true .. |>.mp this with ⟨_, h2⟩
          have := List.all_eq_true.mp h2 i (List.mem_range.mpr hi)
          simpa using this
  · exact fun cap allIds file res h => poster.save_posted_ids_subset cap allIds file res h

def dirC6 : poster.PubDirEntry :=
  { metaId := some (.jstr "a"), payload := some pubPayloadOk }

/-- C6 witnessed at a concrete delivered article and a concrete save. -/
theorem C6_ledger_only_if_all_chunks_witness :
    (∃ d ∈ [dirC6], d.metaId = some (.jstr "a") ∧
      ∃ p, d.payload = some p ∧ p.raises = false ∧
        ∀ i < (poster.chunk_text 4096 p.fullContent).length,
          p.sendChunkOk i = true) ∧
    (∀ x ∈ [PJson.jint 1, PJson.jint 2],
      x ∈ [PJson.jint 1, PJson.jint 2, PJson.jint 3]) :=
  ⟨C6_ledger_only_if_all_chunks.1 .missing [dirC6] none
      { newIds := [.jstr "a"], sent := 1, savedLedger := some [.jstr "a"] }
      rfl (.jstr "a") (by decide),
   C6_ledger_only_if_all_chunks.2 2 [.jint 1, .jint 2, .jint 3] .missing
      [.jint 1, .jint 2] rfl⟩

namespace mainpy

theorem pipelineMain_processed (postedFile : StateFile)
    (catalog0 : List CatItem) (entries : List PipeEntry) (lang : String) :
    (pipelineMain postedFile catalog0 entries lang).processed =
      (entries.foldl (pipeStep (load_posted_ids postedFile) lang)
        { catalog := catalog0, idSet := (catalog0.map (fun c => c.id)).dedup,
          newCount := 0, updatedGuids := [], processed := [] }).processed :=
  rfl

end mainpy

/-- C2 amended: for the Publisher, any id its state loader recovered as an
int (bare ints, digit strings, objects with an int-convertible id) is
never redelivered in that run as an integer meta id — but non-numeric
guids are not excluded (see the counterexample); for the Pipeline, any
item of the posted-ids file whose Python string form equals an entry's
guid prevents that guid from being reprocessed in the run. -/
theorem C2_exclusion_amended :
    (∀ (state : StateFile) (dirs : List poster.PubDirEntry)
        (limit : Option Nat) (out : poster.PubOut) (n : Int),
      poster.pubMain state dirs limit = some out →
      n ∈ poster.load_posted_ids state →
      PJson.jint n ∉ out.newIds) ∧
    (∀ (items : List PJson) (catalog0 : List mainpy.CatItem)
        (entries : List mainpy.PipeEntry) (lang : String) (it : PJson)
        (g : String),
      it ∈ items → PyPrim.pyStr it = g →
      g ∉ (mainpy.pipelineMain (.content items) catalog0 entries
        lang).processed) := by
  constructor
  · intro state dirs limit out n hmain hn hmem
    rw [poster.pubMain_eq] at hmain
    cases hsort : poster.pySortByKey
        (poster.collectArts (poster.load_posted_ids state) dirs) with
    | none => simp only [hsort] at hmain; exact absurd hmain (by simp)
    | some sortedArts =>
      simp only [hsort, Option.some_inj] at hmain
      have hnew : PJson.jint n ∈ (sortedArts.foldl (poster.pubStep limit)
          { sent := 0, newIds := [] }).newIds := by
        rw [← hmain] at hmem
        simpa using hmem
      rcases poster.pubFold_newIds_mem limit sortedArts _ _ hnew with
        h | ⟨a, ha, hk, hd⟩
      · simp at h
      · have hart := poster.pySortByKey_mem _ _ hsort a ha
        obtain ⟨d, hdmem, hmid, hpay, hnotin⟩ :=
          poster.collectArts_mem _ _ _ hart
        rw [hk] at hnotin
        unfold poster.pjHashableNotIn at hnotin
        have hdec := Option.some_inj.mp hnotin
        exact (of_decide_eq_true hdec) hn
  · intro items catalog0 entries lang it g hit hstr
    rw [mainpy.pipelineMain_processed]
    refine mainpy.pipeFold_processed _ lang entries _ g ?_ (by simp)
    unfold mainpy.load_posted_ids
    rw [List.mem_dedup]
    exact List.mem_map.mpr ⟨it, hit, hstr⟩

def dirC2w : poster.PubDirEntry :=
  { metaId := some (.jint 5), payload := some pubPayloadOk }

/-- C2 amended witnessed at a concrete int id and a concrete guid. -/
theorem C2_exclusion_amended_witness :
    PJson.jint 5 ∉
      ({ newIds := [], sent := 0, savedLedger := none } :
        poster.PubOut).newIds ∧
    "g" ∉ (mainpy.pipelineMain (.content [.jstr "g"]) [] [] "").processed :=
  ⟨C2_exclusion_amended.1 (.content [.jint 5]) [dirC2w] none
      { newIds := [], sent := 0, savedLedger := none } 5 rfl (by decide),
   C2_exclusion_amended.2 [.jstr "g"] [] [] "" (.jstr "g") "g"
      (by decide) rfl⟩
